import Mathlib

/-!
Verification of the boid flocking simulation (`src/main.cpp`).

The per-frame update algorithm of `Flock::update` is embedded shallowly:

* `sf::Vector2f` becomes `Vec`, a pair of rationals; float arithmetic is
  idealised as exact rational arithmetic.
* The two irrational primitives of the code, `sf::Vector2f::length`
  (a square root) and `std::pow(2.f, dist)`, are passed in as explicit
  oracles `S P : ℚ → ℚ` (`S` receives the squared length).  Theorems
  assume of the oracles only the properties of the mathematical functions
  they stand for, and witnesses instantiate them with concrete functions
  that provably have those properties at every point consulted.
* Every division of the C++ code is checked: dividing by zero — which in
  IEEE float produces NaN/Infinity — makes the embedded computation
  return `none`.  So `update … = some _` means "no non-finite value was
  produced" and `update … = none` means a division by zero happened.
* The single `static std::mt19937` random source is modelled by an
  explicit draw sequence `noise : Nat → ℚ`; boid number `i` of a pass
  consumes draws `noise (2*i)` and `noise (2*i+1)`, exactly as the two
  `noise(rng)` calls of line 124 do.
-/

namespace Boids

/-- Two-dimensional vector (`sf::Vector2f`) over exact rationals. -/
structure Vec where
  x : ℚ
  y : ℚ
deriving DecidableEq, Repr

instance : Add Vec := ⟨fun a b => ⟨a.x + b.x, a.y + b.y⟩⟩

instance : Sub Vec := ⟨fun a b => ⟨a.x - b.x, a.y - b.y⟩⟩

instance : SMul ℚ Vec := ⟨fun q v => ⟨q * v.x, q * v.y⟩⟩

instance : Zero Vec := ⟨⟨0, 0⟩⟩

/-- Squared Euclidean length; `sf::Vector2f::length()` is `S (normSq v)`
for a square-root oracle `S`. -/
def normSq (v : Vec) : ℚ := v.x * v.x + v.y * v.y

/-- Checked component-wise division of a vector by a scalar
(`sf::Vector2f::operator/`): `none` exactly when the divisor is zero,
which is the case where C++ floats produce NaN/Infinity. -/
def vdiv (v : Vec) (q : ℚ) : Option Vec :=
  if q = 0 then none else some ⟨v.x / q, v.y / q⟩

/-- Checked scalar division, same convention as `vdiv`. -/
def sdiv (a b : ℚ) : Option ℚ :=
  if b = 0 then none else some (a / b)

/-- One boid: position, velocity, radius and the display-only color
(`Boid`'s fields `mPos`, `mVel`, `mRadius`, `mColor`). -/
structure Boid where
  pos : Vec
  vel : Vec
  radius : ℚ
  color : Nat
deriving DecidableEq, Repr

/-- Flock state: the owned boid list and the shared destination
(`Flock`'s fields `mBoids` and `mDest`). -/
structure Flock where
  boids : List Boid
  dest : Vec
deriving DecidableEq, Repr

/-- `AVOID_FACTOR = 0.5f`. -/
def AVOID_FACTOR : ℚ := 1/2

/-- `VISUAL_RANGE = 20.f`. -/
def VISUAL_RANGE : ℚ := 20

/-- `CENTERING_FACTOR = 0.0005f`. -/
def CENTERING_FACTOR : ℚ := 1/2000

/-- `MATCHING_FACTOR = 0.05f`. -/
def MATCHING_FACTOR : ℚ := 1/20

/-- `MAX_SPEED = 6.f`. -/
def MAX_SPEED : ℚ := 6

/-- `MIN_SPEED = 1.f`. -/
def MIN_SPEED : ℚ := 1

/-- `BIAS_VAL = 0.005f`. -/
def BIAS_VAL : ℚ := 1/200

/-- `NOISE_STRENGTH = 0.1f`. -/
def NOISE_STRENGTH : ℚ := 1/10

/-- Clamp epsilon `1e-2f` of lines 131 and 135. -/
def CLAMP_EPS : ℚ := 1/100

/-- Accumulators of the inner neighbour loop (lines 80–83):
`separation`, `avg_vel`, `avg_pos`, `neighbourhood_size`. -/
structure Acc where
  sep : Vec
  avgVel : Vec
  avgPos : Vec
  count : Nat
deriving DecidableEq, Repr

/-- The zero-initialised accumulators of lines 80–83. -/
def zeroAcc : Acc := ⟨0, 0, 0, 0⟩

/-- Body of the inner loop of lines 86–107 for one `other` boid at index
`j`, observed by the boid `b` at index `i` (the `boid.get() ==
other_boid.get()` pointer-identity test becomes the index test `j = i`).
When `dist < VISUAL_RANGE` the repulsion `toOther / (len * 2^dist)` is
accumulated through checked division: a zero divisor yields `none`. -/
def accumStep (S P : ℚ → ℚ) (i : Nat) (b : Boid) (acc : Option Acc)
    (j : Nat) (other : Boid) : Option Acc :=
  match acc with
  | none => none
  | some a =>
    if j = i then some a
    else
      let toOther := other.pos - b.pos
      let len := S (normSq toOther)
      let dist := len - (b.radius + other.radius)
      if dist < VISUAL_RANGE then
        match vdiv toOther (len * P dist) with
        | none => none
        | some rep =>
          some ⟨a.sep - rep, a.avgVel + other.vel, a.avgPos + other.pos,
                a.count + 1⟩
      else some a

/-- The whole inner loop of lines 86–107: fold `accumStep` over the
current boid list, starting from the zero accumulators. -/
def accumulate (S P : ℚ → ℚ) (bs : List Boid) (i : Nat) (b : Boid) :
    Option Acc :=
  bs.enum.foldl (fun acc jo => accumStep S P i b acc jo.1 jo.2)
    (some zeroAcc)

/-- Lines 109–113: turn accumulated sums into true averages when the
neighbourhood is nonempty (the division is guarded by `count > 0` in the
code itself, so it is modelled as plain division). -/
def averageAcc (a : Acc) : Acc :=
  if 0 < a.count then
    { a with avgVel := ((a.count : ℚ))⁻¹ • a.avgVel,
             avgPos := ((a.count : ℚ))⁻¹ • a.avgPos }
  else a

/-- Lines 118–120, the three rule contributions applied in place to the
current velocity: separation, alignment, cohesion (the accumulators are
already averaged). -/
def ruleAccumVel (a : Acc) (pos vel : Vec) : Vec :=
  let v1 := vel + AVOID_FACTOR • a.sep
  let v2 := v1 + MATCHING_FACTOR • (a.avgVel - v1)
  let v3 := v2 + CENTERING_FACTOR • (a.avgPos - pos)
  v3

/-- Lines 127–136, the speed clamp: `speed = |v|` is `S (normSq v)`;
scaling factors `MAX_SPEED / (speed + 1e-2)` and
`MIN_SPEED / (speed + 1e-2)` go through checked scalar division. -/
def clampVel (S : ℚ → ℚ) (v : Vec) : Option Vec :=
  let speed := S (normSq v)
  if MAX_SPEED < speed then
    (sdiv MAX_SPEED (speed + CLAMP_EPS)).map (fun k => k • v)
  else if speed < MIN_SPEED then
    (sdiv MIN_SPEED (speed + CLAMP_EPS)).map (fun k => k • v)
  else some v

/-- The body of the outer loop of lines 74–140 for the boid `b = bs[i]`:
neighbour accumulation, averaging, destination normalisation
(`toTarget.normalized()` is `toTarget / |toTarget|`, checked), the three
rules, the destination blend of line 121, the jitter of lines 124–125
with raw draws `n1 n2`, the speed clamp, and the position integration
`boid->move()` of line 139. -/
def updateBoid (S P : ℚ → ℚ) (dest : Vec) (bs : List Boid) (i : Nat)
    (b : Boid) (n1 n2 : ℚ) : Option Boid :=
  match accumulate S P bs i b with
  | none => none
  | some acc =>
    let a := averageAcc acc
    let toTarget := dest - b.pos
    match vdiv toTarget (S (normSq toTarget)) with
    | none => none
    | some dir =>
      let toDest := MAX_SPEED • dir
      let v3 := ruleAccumVel a b.pos b.vel
      let v4 := (1 - BIAS_VAL) • v3 + BIAS_VAL • toDest
      let v5 := v4 + Vec.mk (n1 * NOISE_STRENGTH) (n2 * NOISE_STRENGTH)
      match clampVel S v5 with
      | none => none
      | some v6 => some ⟨b.pos + v6, v6, b.radius, b.color⟩

/-- The outer loop of lines 74–140, processing boids in order starting
at index `i` with `k` boids left to process; each processed boid is
written back into the list before the next one is processed (the code
mutates in place, so later boids observe earlier boids' new state). -/
def updatePass (S P : ℚ → ℚ) (dest : Vec) (noise : Nat → ℚ) :
    Nat → Nat → List Boid → Option (List Boid)
  | 0, _, bs => some bs
  | k + 1, i, bs =>
    match bs[i]? with
    | none => some bs
    | some b =>
      match updateBoid S P dest bs i b (noise (2 * i)) (noise (2 * i + 1)) with
      | none => none
      | some b' => updatePass S P dest noise k (i + 1) (bs.set i b')

/-- `Flock::update` (lines 69–141). -/
def update (S P : ℚ → ℚ) (noise : Nat → ℚ) (st : Flock) : Option Flock :=
  (updatePass S P st.dest noise st.boids.length 0 st.boids).map
    (fun bs => ⟨bs, st.dest⟩)

/-- `Flock::addBoid` (lines 162–165): `emplace_back` of a boid with the
given position and radius and the zero initial velocity of line 53. -/
def addBoid (st : Flock) (x y radius : ℚ) (color : Nat) : Flock :=
  { st with boids := st.boids ++ [⟨⟨x, y⟩, 0, radius, color⟩] }

/-- `Flock::setDest` (line 171). -/
def setDest (st : Flock) (newDest : Vec) : Flock :=
  { st with dest := newDest }

/-- `Flock::clear` (line 176): `mBoids.clear()`. -/
def clear (st : Flock) : Flock :=
  { st with boids := [] }

/-- The velocity-integration pipeline exactly as §4.2 step 5 of the spec
words it, given the already-averaged accumulators and the precomputed
`destination_velocity` and jitter vector: add `separation * AVOID_FACTOR`,
add `MATCHING_FACTOR * (avg_velocity - velocity)`, add
`CENTERING_FACTOR * (avg_position - position)`, then replace the velocity
by the blend `(1 - BIAS) * velocity + BIAS * destination_velocity`, add
the jitter, and clamp the speed.  This is the spec-side definition of the
refinement claim about integration order; it is compared with
`updateBoid`, which is transcribed from the code. -/
def specStep5Velocity (S : ℚ → ℚ)
    (vel pos sep avgVel avgPos destVel jitter : Vec) : Option Vec :=
  let va := vel + AVOID_FACTOR • sep
  let vb := va + MATCHING_FACTOR • (avgVel - va)
  let vc := vb + CENTERING_FACTOR • (avgPos - pos)
  let vd := (1 - BIAS_VAL) • vc + BIAS_VAL • destVel
  clampVel S (vd + jitter)

/-- Small-step execution relation for one `Flock::update` pass: from
index `i` on, each boid in turn is replaced by its `updateBoid` result,
exactly as the outer loop of lines 74–140 does.  Two derivations from the
same snapshot with the same draw sequence model two runs of `update()`
on identical state. -/
inductive UpdateRel (S P : ℚ → ℚ) (dest : Vec) (noise : Nat → ℚ) :
    Nat → List Boid → List Boid → Prop
  | done (i : Nat) (bs : List Boid) (h : bs.length ≤ i) :
      UpdateRel S P dest noise i bs bs
  | step (i : Nat) (bs : List Boid) (b b' : Boid) (out : List Boid)
      (hget : bs[i]? = some b)
      (hup : updateBoid S P dest bs i b (noise (2 * i)) (noise (2 * i + 1)) =
        some b')
      (hrest : UpdateRel S P dest noise (i + 1) (bs.set i b') out) :
      UpdateRel S P dest noise i bs out

/-- Constant-one oracle, used to instantiate the `pow(2, dist)` slot on
inputs where only its positivity matters. -/
def oneFun : ℚ → ℚ := fun _ => 1

/-- Constant-zero oracle: a valid square-root oracle at the single input
`0`, which is the only point some evaluations consult. -/
def zeroFun : ℚ → ℚ := fun _ => 0

/-- The all-zero random-draw sequence (each raw draw lies in `[-1, 1]`). -/
def zeroNoise : Nat → ℚ := fun _ => 0

/-- A square-root oracle given by a finite table; on every input consulted
by the concrete runs below it provably returns the exact square root. -/
def sqrtW : ℚ → ℚ := fun q =>
  if q = 1 then 1
  else if q = 1/2500 then 1/50
  else if q = 4/9 then 2/3
  else if q = 900 then 30
  else 0

/-- Draw sequence whose first raw draw is `-1/10` and all others `0`;
every raw draw lies in `[-1, 1]`. -/
def noiseW : Nat → ℚ := fun n => if n = 0 then -(1/10) else 0

/-! ## Basic lemmas about the vector algebra -/

@[simp] theorem Vec.add_mk (a b c d : ℚ) :
    (Vec.mk a b) + (Vec.mk c d) = ⟨a + c, b + d⟩ := rfl

@[simp] theorem Vec.sub_mk (a b c d : ℚ) :
    (Vec.mk a b) - (Vec.mk c d) = ⟨a - c, b - d⟩ := rfl

@[simp] theorem Vec.smul_mk (q a b : ℚ) :
    q • (Vec.mk a b) = ⟨q * a, q * b⟩ := rfl

@[simp] theorem Vec.zero_def : (0 : Vec) = ⟨0, 0⟩ := rfl

@[simp] theorem Vec.zero_x : (0 : Vec).x = 0 := rfl

@[simp] theorem Vec.zero_y : (0 : Vec).y = 0 := rfl

@[simp] theorem Vec.add_x (v w : Vec) : (v + w).x = v.x + w.x := rfl

@[simp] theorem Vec.add_y (v w : Vec) : (v + w).y = v.y + w.y := rfl

@[simp] theorem Vec.sub_x (v w : Vec) : (v - w).x = v.x - w.x := rfl

@[simp] theorem Vec.sub_y (v w : Vec) : (v - w).y = v.y - w.y := rfl

@[simp] theorem Vec.smul_x (q : ℚ) (v : Vec) : (q • v).x = q * v.x := rfl

@[simp] theorem Vec.smul_y (q : ℚ) (v : Vec) : (q • v).y = q * v.y := rfl

@[simp] theorem normSq_mk (a b : ℚ) : normSq ⟨a, b⟩ = a * a + b * b := rfl

theorem Vec.ext_xy (v w : Vec) (hx : v.x = w.x) (hy : v.y = w.y) : v = w := by
  cases v; cases w; simp_all

theorem normSq_smul (k : ℚ) (v : Vec) :
    normSq (k • v) = k * k * normSq v := by
  simp [normSq]; ring

theorem normSq_sub_comm (v w : Vec) : normSq (v - w) = normSq (w - v) := by
  simp [normSq]; ring

/-! ## The speed clamp bounds the post-clamp speed by `MAX_SPEED` -/

/-- Whenever the clamp of lines 127–136 completes without a zero divisor,
the resulting speed is at most `MAX_SPEED`, for any oracle `S` that is
nonnegative and commutes with nonnegative scaling the way a square root
does. -/
theorem clampVel_speed_le (S : ℚ → ℚ) (hS1 : ∀ q, 0 ≤ S q)
    (hS2 : ∀ k q, 0 ≤ k → S (k * k * q) = k * S q)
    (v v' : Vec) (h : clampVel S v = some v') :
    S (normSq v') ≤ MAX_SPEED := by
  have hs0 : 0 ≤ S (normSq v) := hS1 _
  have hd : S (normSq v) + CLAMP_EPS ≠ 0 := by
    have : (0:ℚ) < CLAMP_EPS := by norm_num [CLAMP_EPS]
    linarith
  have hdpos : 0 < S (normSq v) + CLAMP_EPS := by
    have : (0:ℚ) < CLAMP_EPS := by norm_num [CLAMP_EPS]
    linarith
  unfold clampVel at h
  by_cases h6 : MAX_SPEED < S (normSq v)
  · simp only [h6, if_true, sdiv, hd, if_false, Option.map_some'] at h
    have hv' : v' = (MAX_SPEED / (S (normSq v) + CLAMP_EPS)) • v :=
      (Option.some.inj h).symm
    have hk : (0:ℚ) ≤ MAX_SPEED / (S (normSq v) + CLAMP_EPS) := by
      apply div_nonneg
      · norm_num [MAX_SPEED]
      · linarith
    rw [hv', normSq_smul, hS2 _ _ hk]
    rw [div_mul_eq_mul_div, div_le_iff₀ hdpos]
    have : (0:ℚ) < CLAMP_EPS := by norm_num [CLAMP_EPS]
    norm_num [MAX_SPEED] at *
    nlinarith
  · by_cases h1 : S (normSq v) < MIN_SPEED
    · simp only [h6, if_false, h1, if_true, sdiv, hd, Option.map_some'] at h
      have hv' : v' = (MIN_SPEED / (S (normSq v) + CLAMP_EPS)) • v :=
        (Option.some.inj h).symm
      have hk : (0:ℚ) ≤ MIN_SPEED / (S (normSq v) + CLAMP_EPS) := by
        apply div_nonneg
        · norm_num [MIN_SPEED]
        · linarith
      rw [hv', normSq_smul, hS2 _ _ hk]
      rw [div_mul_eq_mul_div, div_le_iff₀ hdpos]
      norm_num [MIN_SPEED, MAX_SPEED, CLAMP_EPS] at *
      nlinarith
    · simp only [h6, if_false, h1] at h
      have hv' : v' = v := (Option.some.inj h).symm
      rw [hv']
      exact le_of_not_lt h6

/-- A boid written back by `updateBoid` went through the clamp, so its
speed is at most `MAX_SPEED`. -/
theorem updateBoid_speed_le (S P : ℚ → ℚ) (hS1 : ∀ q, 0 ≤ S q)
    (hS2 : ∀ k q, 0 ≤ k → S (k * k * q) = k * S q)
    (dest : Vec) (bs : List Boid) (i : Nat) (b b' : Boid) (n1 n2 : ℚ)
    (h : updateBoid S P dest bs i b n1 n2 = some b') :
    S (normSq b'.vel) ≤ MAX_SPEED := by
  unfold updateBoid at h
  split at h
  · exact absurd h (by simp)
  · dsimp only at h
    split at h
    · exact absurd h (by simp)
    · split at h
      · exact absurd h (by simp)
      · rename_i v6 hclamp
        have hb' : b' = ⟨b.pos + v6, v6, b.radius, b.color⟩ :=
          (Option.some.inj h).symm
        rw [hb']
        exact clampVel_speed_le S hS1 hS2 _ _ hclamp

/-! ## Structural lemmas about the update pass -/

theorem updatePass_length (S P : ℚ → ℚ) (dest : Vec) (noise : Nat → ℚ) :
    ∀ (k i : Nat) (bs out : List Boid),
      updatePass S P dest noise k i bs = some out →
      out.length = bs.length := by
  intro k
  induction k with
  | zero =>
    intro i bs out h
    simp only [updatePass] at h
    exact (Option.some.inj h).symm ▸ rfl
  | succ k ih =>
    intro i bs out h
    simp only [updatePass] at h
    split at h
    · exact (Option.some.inj h).symm ▸ rfl
    · split at h
      · exact absurd h (by simp)
      · have := ih _ _ _ h
        rwa [List.length_set] at this

theorem updatePass_getElem_lt (S P : ℚ → ℚ) (dest : Vec) (noise : Nat → ℚ) :
    ∀ (k i : Nat) (bs out : List Boid),
      updatePass S P dest noise k i bs = some out →
      ∀ j : Nat, j < i → out[j]? = bs[j]? := by
  intro k
  induction k with
  | zero =>
    intro i bs out h j _
    cases Option.some.inj h
    rfl
  | succ k ih =>
    intro i bs out h j hj
    simp only [updatePass] at h
    split at h
    · cases Option.some.inj h
      rfl
    · split at h
      · exact absurd h (by simp)
      · have h1 := ih _ _ _ h j (Nat.lt_succ_of_lt hj)
        rw [h1, List.getElem?_set_ne (Nat.ne_of_gt hj)]

/-- Every boid index processed by a pass ends up holding an
`updateBoid` result, hence a clamped velocity. -/
theorem updatePass_speed_le (S P : ℚ → ℚ) (dest : Vec) (noise : Nat → ℚ)
    (hS1 : ∀ q, 0 ≤ S q)
    (hS2 : ∀ k q, 0 ≤ k → S (k * k * q) = k * S q) :
    ∀ (k i : Nat) (bs out : List Boid),
      updatePass S P dest noise k i bs = some out →
      ∀ (j : Nat) (b' : Boid), i ≤ j → j < i + k → out[j]? = some b' →
        S (normSq b'.vel) ≤ MAX_SPEED := by
  intro k
  induction k with
  | zero => omega
  | succ k ih =>
    intro i bs out h j b' hij hjk hget
    simp only [updatePass] at h
    split at h
    · rename_i hnone
      cases Option.some.inj h
      have hlen : bs.length ≤ i := by
        by_contra hc
        push_neg at hc
        rw [List.getElem?_eq_getElem hc] at hnone
        cases hnone
      have hjlen : j < bs.length := (List.getElem?_eq_some.mp hget).1
      omega
    · rename_i b hb
      split at h
      · exact absurd h (by simp)
      · rename_i b1 hb1
        rcases Nat.eq_or_lt_of_le hij with heq | hlt
        · subst heq
          have hilen : i < bs.length := (List.getElem?_eq_some.mp hb).1
          have h2 := updatePass_getElem_lt S P dest noise _ _ _ _ h i
            (Nat.lt_succ_self i)
          rw [List.getElem?_set_eq_of_lt b1 (by rwa [])] at h2
          rw [h2] at hget
          cases Option.some.inj hget
          exact updateBoid_speed_le S P hS1 hS2 dest bs i b _ _ _ hb1
        · exact ih _ _ _ h j b' hlt (by omega) hget

/-! ## The execution relation is deterministic and matches the function -/

theorem updateRel_deterministic (S P : ℚ → ℚ) (dest : Vec)
    (noise : Nat → ℚ) (i : Nat) (bs out1 out2 : List Boid)
    (h1 : UpdateRel S P dest noise i bs out1)
    (h2 : UpdateRel S P dest noise i bs out2) : out1 = out2 := by
  induction h1 generalizing out2 with
  | done i bs h =>
    cases h2 with
    | done => rfl
    | step i bs b b' out hget hup hrest =>
      rw [List.getElem?_eq_none h] at hget
      cases hget
  | step i bs b b' out hget hup hrest ih =>
    cases h2 with
    | done _ _ h =>
      rw [List.getElem?_eq_none h] at hget
      cases hget
    | step _ _ b2 b2' out2' hget2 hup2 hrest2 =>
      rw [hget] at hget2
      cases Option.some.inj hget2
      rw [hup] at hup2
      cases Option.some.inj hup2
      exact ih _ hrest2

/-- Each successful run of the sequential pass is a derivation of the
execution relation, so the relation does model `Flock::update`. -/
theorem updatePass_updateRel (S P : ℚ → ℚ) (dest : Vec)
    (noise : Nat → ℚ) :
    ∀ (k i : Nat) (bs out : List Boid), bs.length ≤ i + k →
      updatePass S P dest noise k i bs = some out →
      UpdateRel S P dest noise i bs out := by
  intro k
  induction k with
  | zero =>
    intro i bs out hlen h
    cases Option.some.inj h
    exact UpdateRel.done i bs (by omega)
  | succ k ih =>
    intro i bs out hlen h
    simp only [updatePass] at h
    split at h
    · rename_i hnone
      cases Option.some.inj h
      refine UpdateRel.done i bs ?_
      by_contra hc
      push_neg at hc
      rw [List.getElem?_eq_getElem hc] at hnone
      cases hnone
    · rename_i b hb
      split at h
      · exact absurd h (by simp)
      · rename_i b1 hb1
        exact UpdateRel.step i bs b b1 out hb hb1
          (ih (i + 1) (bs.set i b1) out (by rw [List.length_set]; omega) h)

/-! ## Lemmas about the neighbour accumulation -/

theorem accumStep_none (S P : ℚ → ℚ) (i : Nat) (b : Boid) (j : Nat)
    (other : Boid) : accumStep S P i b none j other = none := rfl

theorem accumStep_self (S P : ℚ → ℚ) (i : Nat) (b : Boid)
    (acc : Option Acc) (other : Boid) :
    accumStep S P i b acc i other = acc := by
  cases acc with
  | none => rfl
  | some a => simp [accumStep]

/-- Closed form of one accumulation step over a genuinely different boid:
the neighbour test is `surface distance < VISUAL_RANGE`, and a neighbour
contributes its repulsion, velocity and position and bumps the count. -/
theorem accumStep_some (S P : ℚ → ℚ) (i : Nat) (b : Boid) (a : Acc)
    (j : Nat) (other : Boid) (hj : j ≠ i) :
    accumStep S P i b (some a) j other =
      if S (normSq (other.pos - b.pos)) - (b.radius + other.radius) <
          VISUAL_RANGE then
        (vdiv (other.pos - b.pos)
            (S (normSq (other.pos - b.pos)) *
              P (S (normSq (other.pos - b.pos)) -
                (b.radius + other.radius)))).map
          (fun rep => ⟨a.sep - rep, a.avgVel + other.vel,
            a.avgPos + other.pos, a.count + 1⟩)
      else some a := by
  unfold accumStep
  dsimp only
  rw [if_neg hj]
  split
  · cases vdiv (other.pos - b.pos)
        (S (normSq (other.pos - b.pos)) *
          P (S (normSq (other.pos - b.pos)) -
            (b.radius + other.radius))) <;> rfl
  · rfl

theorem accumFold_none (S P : ℚ → ℚ) (i : Nat) (b : Boid) :
    ∀ l : List (Nat × Boid),
      l.foldl (fun acc jo => accumStep S P i b acc jo.1 jo.2) none =
        none := by
  intro l
  induction l with
  | nil => rfl
  | cons hd tl ih => simpa [accumStep_none] using ih

/-- The neighbour count never decreases along the fold, and if it did not
grow at all then the accumulators did not change either. -/
theorem accumFold_count (S P : ℚ → ℚ) (i : Nat) (b : Boid) :
    ∀ (l : List (Nat × Boid)) (a0 a : Acc),
      l.foldl (fun acc jo => accumStep S P i b acc jo.1 jo.2) (some a0) =
        some a →
      a0.count ≤ a.count ∧ (a.count = a0.count → a = a0) := by
  intro l
  induction l with
  | nil =>
    intro a0 a h
    cases Option.some.inj h
    exact ⟨le_refl _, fun _ => rfl⟩
  | cons hd tl ih =>
    intro a0 a h
    simp only [List.foldl_cons] at h
    rcases hstep : accumStep S P i b (some a0) hd.1 hd.2 with _ | a1
    · rw [hstep, accumFold_none] at h
      cases h
    · rw [hstep] at h
      have h1 := ih a1 a h
      simp only [accumStep] at hstep
      split at hstep
      · cases Option.some.inj hstep
        exact h1
      · split at hstep
        · split at hstep
          · cases hstep
          · rename_i rep hrep
            cases Option.some.inj hstep
            simp only [] at h1
            exact ⟨by omega, fun hc => by omega⟩
        · cases Option.some.inj hstep
          exact h1

/-- A boid with zero neighbours ends the inner loop with all accumulators
still zero. -/
theorem accumulate_count_zero (S P : ℚ → ℚ) (bs : List Boid) (i : Nat)
    (b : Boid) (a : Acc) (h : accumulate S P bs i b = some a)
    (hc : a.count = 0) : a = zeroAcc := by
  have := accumFold_count S P i b bs.enum zeroAcc a h
  exact this.2 (by simpa [zeroAcc] using hc)

/-! ## The claims -/

/-- Claim C1: the claim says that for two coincident agents with positive
radii a single `Flock::update` produces no NaN/Infinity because the
separation divisor `len` is guarded by an epsilon floor.  The code has no
such guard: evaluating the embedded update on two boids at the identical
position `(0,0)` with radius `1` hits the division
`toOther / (len * pow(2, dist))` with `len = 0` (any square-root oracle
returns `0` on squared length `0`, and the `pow` oracle used here is
everywhere positive, so the divisor is zero exactly because `len` is),
which in IEEE float arithmetic is `0/0 = NaN`; the embedding flags it by
returning `none`. -/
theorem C1_coincident_divzero :
    update zeroFun oneFun zeroNoise
      ⟨[⟨⟨0, 0⟩, ⟨0, 0⟩, 1, 0⟩, ⟨⟨0, 0⟩, ⟨0, 0⟩, 1, 0⟩], ⟨7, 0⟩⟩ = none ∧
    zeroFun (normSq ((Vec.mk 0 0) - ⟨0, 0⟩)) = 0 ∧
    (∀ q : ℚ, 0 < oneFun q) := by
  refine ⟨?_, rfl, fun q => by norm_num [oneFun]⟩
  simp [update, updatePass, updateBoid, accumulate, accumStep,
    zeroFun, oneFun, zeroNoise, zeroAcc, vdiv, VISUAL_RANGE, List.enum]
  norm_num

/-- Claim C2, amended: after every `Flock::update` that completes without
a zero divisor, every agent's speed is at most `MAX_SPEED`; moreover the
two clamp branches are mutually exclusive and each divides by
`speed + 1e-2`.  (The claimed lower bound `MIN_SPEED` is false, see the
counterexample: a pre-clamp speed `s < MIN_SPEED` is rescaled to
`s * MIN_SPEED / (s + 1e-2)`, which stays below `MIN_SPEED` and can be far
from both `MIN_SPEED` and zero.)  `S` is any square-root-like oracle:
nonnegative and commuting with nonnegative scaling. -/
theorem C2_speed_upper_bound (S P : ℚ → ℚ) (noise : Nat → ℚ)
    (st st' : Flock)
    (hS1 : ∀ q, 0 ≤ S q)
    (hS2 : ∀ k q, 0 ≤ k → S (k * k * q) = k * S q)
    (h : update S P noise st = some st') :
    (∀ b ∈ st'.boids, S (normSq b.vel) ≤ MAX_SPEED) ∧
    (∀ v : Vec, ¬(MAX_SPEED < S (normSq v) ∧ S (normSq v) < MIN_SPEED)) ∧
    (∀ v : Vec, S (normSq v) < MIN_SPEED →
      clampVel S v =
        (sdiv MIN_SPEED (S (normSq v) + CLAMP_EPS)).map (fun k => k • v)) ∧
    (∀ v : Vec, MAX_SPEED < S (normSq v) →
      clampVel S v =
        (sdiv MAX_SPEED (S (normSq v) + CLAMP_EPS)).map (fun k => k • v)) := by
  refine ⟨?_, ?_, ?_, ?_⟩
  · intro b hb
    unfold update at h
    rcases hpass : updatePass S P st.dest noise st.boids.length 0 st.boids
      with _ | out
    · rw [hpass] at h
      cases h
    · rw [hpass] at h
      simp only [Option.map_some'] at h
      cases Option.some.inj h
      obtain ⟨j, hj⟩ := List.mem_iff_getElem?.mp hb
      have hjlen : j < out.length := (List.getElem?_eq_some.mp hj).1
      have hlen := updatePass_length S P st.dest noise _ _ _ _ hpass
      exact updatePass_speed_le S P st.dest noise hS1 hS2 _ 0 _ _ hpass j b
        (Nat.zero_le j) (by omega) hj
  · intro v hv
    have := hv.1.trans hv.2
    norm_num [MAX_SPEED, MIN_SPEED] at this
  · intro v hv
    unfold clampVel
    rw [if_neg (by norm_num [MAX_SPEED, MIN_SPEED] at hv ⊢; linarith),
      if_pos hv]
  · intro v hv
    unfold clampVel
    rw [if_pos hv]

/-- Witness for C2: the amended theorem applied to a concrete flock and a
concrete square-root-like oracle; the branch characterisations are
instantiated at the concrete vector `(5,5)`, whose oracle speed `0` is
below `MIN_SPEED`. -/
theorem C2_speed_upper_bound_witness :
    update zeroFun oneFun zeroNoise ⟨[], ⟨3, 4⟩⟩ = some ⟨[], ⟨3, 4⟩⟩ ∧
    ¬(MAX_SPEED < zeroFun (normSq (Vec.mk 5 5)) ∧
      zeroFun (normSq (Vec.mk 5 5)) < MIN_SPEED) ∧
    clampVel zeroFun (Vec.mk 5 5) =
      (sdiv MIN_SPEED (zeroFun (normSq (Vec.mk 5 5)) + CLAMP_EPS)).map
        (fun k => k • (Vec.mk 5 5)) := by
  have h := C2_speed_upper_bound zeroFun oneFun zeroNoise ⟨[], ⟨3, 4⟩⟩
    ⟨[], ⟨3, 4⟩⟩ (fun q => le_refl 0) (fun k q hk => by simp [zeroFun]) rfl
  exact ⟨rfl, h.2.1 ⟨5, 5⟩,
    h.2.2.1 ⟨5, 5⟩ (by norm_num [zeroFun, MIN_SPEED])⟩

/-- Counterexample to claim C2 as stated: one boid at the origin with zero
velocity, destination `(1,0)`, raw draws `(-1/10, 0)` (both within
`[-1,1]`).  The square-root oracle provably returns the exact square root
at every point it is consulted (`1`, `1/2500`, `4/9`), yet after one
update the boid's speed is `2/3`: not in `[MIN_SPEED, MAX_SPEED]` and not
within any floating-point epsilon of zero (it exceeds `1/100`). -/
theorem C2_clamp_counterexample :
    update sqrtW oneFun noiseW ⟨[⟨⟨0, 0⟩, ⟨0, 0⟩, 1, 0⟩], ⟨1, 0⟩⟩ =
      some ⟨[⟨⟨2/3, 0⟩, ⟨2/3, 0⟩, 1, 0⟩], ⟨1, 0⟩⟩ ∧
    sqrtW 1 * sqrtW 1 = 1 ∧
    sqrtW (1/2500) * sqrtW (1/2500) = 1/2500 ∧
    sqrtW (normSq (Vec.mk (2/3) 0)) * sqrtW (normSq (Vec.mk (2/3) 0)) =
      normSq (Vec.mk (2/3) 0) ∧
    sqrtW (normSq (Vec.mk (2/3) 0)) = 2/3 ∧
    ¬ MIN_SPEED ≤ sqrtW (normSq (Vec.mk (2/3) 0)) ∧
    (1/100 : ℚ) < sqrtW (normSq (Vec.mk (2/3) 0)) ∧
    -1 ≤ -(1/10 : ℚ) ∧ -(1/10 : ℚ) ≤ 1 := by
  refine ⟨?_, by norm_num [sqrtW], by norm_num [sqrtW], by norm_num [sqrtW],
    by norm_num [sqrtW], by norm_num [sqrtW, MIN_SPEED],
    by norm_num [sqrtW], by norm_num, by norm_num⟩
  simp [update, updatePass, updateBoid, accumulate, accumStep,
    sqrtW, oneFun, noiseW, zeroAcc, vdiv, sdiv, averageAcc, ruleAccumVel,
    clampVel, List.enum, normSq, AVOID_FACTOR, MATCHING_FACTOR,
    CENTERING_FACTOR, BIAS_VAL, NOISE_STRENGTH, MAX_SPEED, MIN_SPEED,
    CLAMP_EPS]
  norm_num

/-- Claim C3: the claim says that for an agent standing exactly at the
destination the normalized destination direction is the zero vector and
nothing non-finite arises.  The code calls `toTarget.normalized()`, which
divides by the vector's length with no zero-length guard (SFML's
precondition even forbids the zero vector): for a single boid at `(5,5)`
with destination `(5,5)` the divisor is `0` — IEEE `0/0 = NaN` that the
blend then propagates into velocity and position — and the embedding
flags the division by returning `none`. -/
theorem C3_destination_divzero :
    update zeroFun oneFun zeroNoise ⟨[⟨⟨5, 5⟩, ⟨0, 0⟩, 1, 0⟩], ⟨5, 5⟩⟩ =
      none ∧
    (Vec.mk 5 5) - ⟨5, 5⟩ = 0 ∧
    zeroFun (normSq ((Vec.mk 5 5) - ⟨5, 5⟩)) = 0 := by
  refine ⟨?_, by simp, rfl⟩
  simp [update, updatePass, updateBoid, accumulate, accumStep,
    zeroFun, oneFun, zeroNoise, zeroAcc, vdiv, averageAcc, List.enum]

/-- Claim C4, amended: for an agent with zero neighbours the accumulators
`separation`, `avg_velocity`, `avg_position` indeed all stay zero — but
the subsequent rule accumulation does NOT leave the velocity unchanged:
because alignment and cohesion are not gated on the neighbour count, the
velocity after the three rules equals
`(1 - MATCHING_FACTOR) • vel - CENTERING_FACTOR • pos`
(a pull toward zero velocity and toward the coordinate origin), which
equals the original velocity only in degenerate cases.  (The claimed
exact no-op is refuted by the counterexample.) -/
theorem C4_isolated_no_neighbours (S P : ℚ → ℚ) (bs : List Boid) (i : Nat)
    (b : Boid) (a : Acc) (h : accumulate S P bs i b = some a)
    (hc : a.count = 0) :
    a.sep = 0 ∧ a.avgVel = 0 ∧ a.avgPos = 0 ∧
    ruleAccumVel (averageAcc a) b.pos b.vel =
      (1 - MATCHING_FACTOR) • b.vel - CENTERING_FACTOR • b.pos := by
  have ha := accumulate_count_zero S P bs i b a h hc
  subst ha
  refine ⟨rfl, rfl, rfl, ?_⟩
  apply Vec.ext_xy <;>
    simp [ruleAccumVel, averageAcc, zeroAcc, MATCHING_FACTOR,
      CENTERING_FACTOR, AVOID_FACTOR] <;> ring

/-- Witness for C4: the amended theorem applied to a concrete flock of
one boid at `(2,0)` with velocity `(1,0)`. -/
theorem C4_isolated_witness :
    accumulate zeroFun oneFun [⟨⟨2, 0⟩, ⟨1, 0⟩, 1, 0⟩] 0
      ⟨⟨2, 0⟩, ⟨1, 0⟩, 1, 0⟩ = some zeroAcc ∧
    zeroAcc.count = 0 ∧
    ruleAccumVel (averageAcc zeroAcc) (Vec.mk 2 0) ⟨1, 0⟩ =
      (1 - MATCHING_FACTOR) • (Vec.mk 1 0) - CENTERING_FACTOR • ⟨2, 0⟩ := by
  have hacc : accumulate zeroFun oneFun [⟨⟨2, 0⟩, ⟨1, 0⟩, 1, 0⟩] 0
      ⟨⟨2, 0⟩, ⟨1, 0⟩, 1, 0⟩ = some zeroAcc := by
    simp [accumulate, accumStep, List.enum]
  exact ⟨hacc, rfl,
    (C4_isolated_no_neighbours zeroFun oneFun _ 0 _ zeroAcc hacc
      rfl).2.2.2⟩

/-- Counterexample to claim C4 as stated: an isolated boid at `(2,0)`
with velocity `(1,0)` has all accumulators zero, yet the rule
accumulation (before bias, jitter and clamp) changes its velocity to
`(949/1000, 0) ≠ (1,0)`: alignment shrinks it by `MATCHING_FACTOR` and
cohesion adds `-CENTERING_FACTOR • pos`. -/
theorem C4_rule_shift_counterexample :
    accumulate oneFun oneFun [⟨⟨2, 0⟩, ⟨1, 0⟩, 1, 0⟩] 0
      ⟨⟨2, 0⟩, ⟨1, 0⟩, 1, 0⟩ = some zeroAcc ∧
    ruleAccumVel (averageAcc zeroAcc) (Vec.mk 2 0) ⟨1, 0⟩ =
      ⟨949/1000, 0⟩ ∧
    (Vec.mk (949/1000) 0) ≠ ⟨1, 0⟩ := by
  refine ⟨by simp [accumulate, accumStep, List.enum], ?_, by norm_num⟩
  apply Vec.ext_xy <;>
    norm_num [ruleAccumVel, averageAcc, zeroAcc, MATCHING_FACTOR,
      CENTERING_FACTOR, AVOID_FACTOR]

/-- Claim C5: in a two-boid flock, the other boid counts as a neighbour
(bumping the count to 1) exactly when the surface-to-surface distance
`|Δpos| - (rA + rB)` is strictly below `VISUAL_RANGE`; and whenever the
squared centre distance exceeds `(VISUAL_RANGE + rA + rB)^2` — i.e. the
centre distance exceeds `VISUAL_RANGE` plus the radius sum — neither boid
contributes anything to the other's accumulators, in either direction.
The oracle hypotheses say `S` returns the true square root of the pair's
squared distance. -/
theorem C5_visual_range (S P : ℚ → ℚ) (bA bB : Boid)
    (hw : S (normSq (bB.pos - bA.pos)) * S (normSq (bB.pos - bA.pos)) =
      normSq (bB.pos - bA.pos))
    (hnn : 0 ≤ S (normSq (bB.pos - bA.pos)))
    (hA : 0 ≤ bA.radius) (hB : 0 ≤ bB.radius) :
    (∀ a : Acc, accumulate S P [bA, bB] 0 bA = some a →
      (a.count = 1 ↔
        S (normSq (bB.pos - bA.pos)) - (bA.radius + bB.radius) <
          VISUAL_RANGE)) ∧
    ((VISUAL_RANGE + (bA.radius + bB.radius)) *
        (VISUAL_RANGE + (bA.radius + bB.radius)) <
        normSq (bB.pos - bA.pos) →
      accumulate S P [bA, bB] 0 bA = some zeroAcc ∧
      accumulate S P [bA, bB] 1 bB = some zeroAcc) := by
  have hred0 : accumulate S P [bA, bB] 0 bA =
      accumStep S P 0 bA (some zeroAcc) 1 bB := by
    simp [accumulate, List.enum, accumStep_self]
  have hred1 : accumulate S P [bA, bB] 1 bB =
      accumStep S P 1 bB (some zeroAcc) 0 bA := by
    simp [accumulate, List.enum, accumStep_self]
  constructor
  · intro a ha
    rw [hred0, accumStep_some S P 0 bA zeroAcc 1 bB (by norm_num)] at ha
    by_cases hcond :
        S (normSq (bB.pos - bA.pos)) - (bA.radius + bB.radius) <
          VISUAL_RANGE
    · rw [if_pos hcond] at ha
      rcases hdiv : vdiv (bB.pos - bA.pos)
          (S (normSq (bB.pos - bA.pos)) *
            P (S (normSq (bB.pos - bA.pos)) - (bA.radius + bB.radius)))
          with _ | rep
      · rw [hdiv, Option.map_none'] at ha
        cases ha
      · rw [hdiv, Option.map_some'] at ha
        cases Option.some.inj ha
        simpa [zeroAcc] using hcond
    · rw [if_neg hcond] at ha
      cases Option.some.inj ha
      simpa [zeroAcc] using hcond
  · intro hfar
    have hgt : VISUAL_RANGE + (bA.radius + bB.radius) <
        S (normSq (bB.pos - bA.pos)) := by
      nlinarith [hw, hnn, hA, hB]
    have hncond :
        ¬ S (normSq (bB.pos - bA.pos)) - (bA.radius + bB.radius) <
          VISUAL_RANGE := by
      push_neg
      linarith
    constructor
    · rw [hred0, accumStep_some S P 0 bA zeroAcc 1 bB (by norm_num),
        if_neg hncond]
    · rw [hred1, accumStep_some S P 1 bB zeroAcc 0 bA (by norm_num),
        normSq_sub_comm bA.pos bB.pos,
        if_neg (by rw [add_comm bB.radius bA.radius]; exact hncond)]

/-- Witness for C5: two boids at `(0,0)` and `(30,0)` with radius 1 each;
the oracle provably returns the exact square root `30` of the squared
distance `900 > (20 + 2)^2`, and both accumulators stay zero. -/
theorem C5_visual_range_witness :
    sqrtW (normSq ((Vec.mk 30 0) - ⟨0, 0⟩)) *
        sqrtW (normSq ((Vec.mk 30 0) - ⟨0, 0⟩)) =
      normSq ((Vec.mk 30 0) - ⟨0, 0⟩) ∧
    (VISUAL_RANGE + ((1 : ℚ) + 1)) * (VISUAL_RANGE + ((1 : ℚ) + 1)) <
      normSq ((Vec.mk 30 0) - ⟨0, 0⟩) ∧
    accumulate sqrtW oneFun
      [⟨⟨0, 0⟩, ⟨0, 0⟩, 1, 0⟩, ⟨⟨30, 0⟩, ⟨0, 0⟩, 1, 0⟩] 0
      ⟨⟨0, 0⟩, ⟨0, 0⟩, 1, 0⟩ = some zeroAcc ∧
    accumulate sqrtW oneFun
      [⟨⟨0, 0⟩, ⟨0, 0⟩, 1, 0⟩, ⟨⟨30, 0⟩, ⟨0, 0⟩, 1, 0⟩] 1
      ⟨⟨30, 0⟩, ⟨0, 0⟩, 1, 0⟩ = some zeroAcc := by
  have h := (C5_visual_range sqrtW oneFun
      ⟨⟨0, 0⟩, ⟨0, 0⟩, 1, 0⟩ ⟨⟨30, 0⟩, ⟨0, 0⟩, 1, 0⟩
      (by norm_num [sqrtW]) (by norm_num [sqrtW])
      (by norm_num) (by norm_num)).2
    (by norm_num [VISUAL_RANGE])
  exact ⟨by norm_num [sqrtW], by norm_num [VISUAL_RANGE], h.1, h.2⟩

/-- Claim C6: given the accumulated neighbourhood data and the normalized
destination direction, `updateBoid` (transcribed from lines 115–139 of
the code) integrates the velocity exactly in the order the spec words it
(`specStep5Velocity`): separation, alignment, cohesion, the destination
BLEND `(1-BIAS)·vel + BIAS·destination_velocity` (not an addition),
jitter, clamp — all in place on the existing velocity. -/
theorem C6_integration_order (S P : ℚ → ℚ) (dest : Vec) (bs : List Boid)
    (i : Nat) (b : Boid) (n1 n2 : ℚ) (acc : Acc) (dir : Vec)
    (h1 : accumulate S P bs i b = some acc)
    (h2 : vdiv (dest - b.pos) (S (normSq (dest - b.pos))) = some dir) :
    updateBoid S P dest bs i b n1 n2 =
      (specStep5Velocity S b.vel b.pos (averageAcc acc).sep
          (averageAcc acc).avgVel (averageAcc acc).avgPos
          (MAX_SPEED • dir)
          ⟨n1 * NOISE_STRENGTH, n2 * NOISE_STRENGTH⟩).map
        (fun v => ⟨b.pos + v, v, b.radius, b.color⟩) := by
  unfold updateBoid specStep5Velocity ruleAccumVel
  rw [h1]
  dsimp only
  rw [h2]
  dsimp only
  rcases hcl : clampVel S ((1 - BIAS_VAL) •
      (b.vel + AVOID_FACTOR • (averageAcc acc).sep +
        MATCHING_FACTOR • ((averageAcc acc).avgVel -
          (b.vel + AVOID_FACTOR • (averageAcc acc).sep)) +
        CENTERING_FACTOR • ((averageAcc acc).avgPos - b.pos)) +
      BIAS_VAL • MAX_SPEED • dir +
      Vec.mk (n1 * NOISE_STRENGTH) (n2 * NOISE_STRENGTH)) with _ | v6 <;>
    rfl

/-- Witness for C6: the refinement theorem applied to a concrete isolated
boid at the origin with destination `(1,0)` and draws `(1,0)`. -/
theorem C6_integration_order_witness :
    accumulate sqrtW oneFun [⟨⟨0, 0⟩, ⟨0, 0⟩, 1, 0⟩] 0
      ⟨⟨0, 0⟩, ⟨0, 0⟩, 1, 0⟩ = some zeroAcc ∧
    vdiv ((Vec.mk 1 0) - (Vec.mk 0 0))
      (sqrtW (normSq ((Vec.mk 1 0) - (Vec.mk 0 0)))) = some ⟨1, 0⟩ ∧
    updateBoid sqrtW oneFun ⟨1, 0⟩ [⟨⟨0, 0⟩, ⟨0, 0⟩, 1, 0⟩] 0
        ⟨⟨0, 0⟩, ⟨0, 0⟩, 1, 0⟩ 1 0 =
      (specStep5Velocity sqrtW (Vec.mk 0 0) (Vec.mk 0 0)
          (averageAcc zeroAcc).sep (averageAcc zeroAcc).avgVel
          (averageAcc zeroAcc).avgPos (MAX_SPEED • (Vec.mk 1 0))
          ⟨1 * NOISE_STRENGTH, 0 * NOISE_STRENGTH⟩).map
        (fun v => ⟨(Vec.mk 0 0) + v, v, 1, 0⟩) := by
  have hacc : accumulate sqrtW oneFun [⟨⟨0, 0⟩, ⟨0, 0⟩, 1, 0⟩] 0
      ⟨⟨0, 0⟩, ⟨0, 0⟩, 1, 0⟩ = some zeroAcc := by
    simp [accumulate, List.enum, accumStep_self]
  have hdir : vdiv ((Vec.mk 1 0) - (Vec.mk 0 0))
      (sqrtW (normSq ((Vec.mk 1 0) - (Vec.mk 0 0)))) = some ⟨1, 0⟩ := by
    norm_num [vdiv, sqrtW]
  exact ⟨hacc, hdir,
    C6_integration_order sqrtW oneFun ⟨1, 0⟩ [⟨⟨0, 0⟩, ⟨0, 0⟩, 1, 0⟩] 0
      ⟨⟨0, 0⟩, ⟨0, 0⟩, 1, 0⟩ 1 0 zeroAcc ⟨1, 0⟩ hacc hdir⟩

/-- Claim C7: determinism.  Two executions of the update pass from the
same flock snapshot with the same random-draw sequence (two derivations
of the execution relation `UpdateRel` over `st.boids` and `st.dest`)
produce identical resulting flocks. -/
theorem C7_update_deterministic (S P : ℚ → ℚ) (noise : Nat → ℚ)
    (st : Flock) (out1 out2 : List Boid)
    (h1 : UpdateRel S P st.dest noise 0 st.boids out1)
    (h2 : UpdateRel S P st.dest noise 0 st.boids out2) :
    (Flock.mk out1 st.dest) = Flock.mk out2 st.dest := by
  rw [updateRel_deterministic S P st.dest noise 0 st.boids out1 out2 h1 h2]

/-- Witness for C7: two concrete derivations on the empty flock. -/
theorem C7_update_deterministic_witness :
    UpdateRel zeroFun oneFun (Vec.mk 0 0) zeroNoise 0 [] [] ∧
    (Flock.mk [] (Vec.mk 0 0)) = Flock.mk [] (Vec.mk 0 0) :=
  ⟨UpdateRel.done 0 [] (Nat.le_refl 0),
    C7_update_deterministic zeroFun oneFun zeroNoise ⟨[], ⟨0, 0⟩⟩ [] []
      (UpdateRel.done 0 [] (Nat.le_refl 0))
      (UpdateRel.done 0 [] (Nat.le_refl 0))⟩

/-- Claim C8: `Flock::clear` leaves the boid collection empty, and a
subsequent `Flock::update` on the cleared flock succeeds (no error, no
division performed at all) and leaves the flock unchanged. -/
theorem C8_clear_then_update (S P : ℚ → ℚ) (noise : Nat → ℚ)
    (st : Flock) :
    (clear st).boids = [] ∧
    update S P noise (clear st) = some (clear st) :=
  ⟨rfl, rfl⟩

/-- Claim C9: `Flock::addBoid` appends exactly one boid, at position
`(x, y)`, with the given radius and display attribute and the zero
initial velocity, leaving the destination untouched; it is total on its
inputs (the positive-radius hypothesis is the caller contract and is not
even needed). -/
theorem C9_addBoid_appends (st : Flock) (x y radius : ℚ) (color : Nat)
    (h : 0 < radius) :
    (addBoid st x y radius color).boids =
      st.boids ++ [⟨⟨x, y⟩, 0, radius, color⟩] ∧
    (addBoid st x y radius color).boids.length = st.boids.length + 1 ∧
    (addBoid st x y radius color).dest = st.dest := by
  refine ⟨rfl, ?_, rfl⟩
  simp [addBoid]

/-- Witness for C9: a concrete append to the empty flock. -/
theorem C9_addBoid_appends_witness :
    (0 : ℚ) < 3 ∧
    (addBoid ⟨[], ⟨0, 0⟩⟩ 1 2 3 5).boids = [] ++ [⟨⟨1, 2⟩, 0, 3, 5⟩] ∧
    (addBoid ⟨[], ⟨0, 0⟩⟩ 1 2 3 5).boids.length =
      (Flock.mk [] ⟨0, 0⟩).boids.length + 1 ∧
    (addBoid ⟨[], ⟨0, 0⟩⟩ 1 2 3 5).dest = (Flock.mk [] ⟨0, 0⟩).dest := by
  have h := C9_addBoid_appends ⟨[], ⟨0, 0⟩⟩ 1 2 3 5 (by norm_num)
  exact ⟨by norm_num, h.1, h.2.1, h.2.2⟩

/-- Claim C10: `Flock::clear` touches only the boid collection — the
shared destination survives a reset, so a boid added afterwards lives in
a flock still pointing at the previously set destination. -/
theorem C10_clear_preserves_dest (st : Flock) (x y r : ℚ) (c : Nat) :
    clear st = ⟨[], st.dest⟩ ∧
    (clear st).dest = st.dest ∧
    (addBoid (clear st) x y r c).dest = st.dest :=
  ⟨rfl, rfl, rfl⟩

end Boids
